import Mathlib

/-!
Shallow embedding of `skills/vertex-ai-reasoning-config/scripts/vertex_ai_reasoning_config.py`
(a read-merge-write configuration updater for env vars of a remote resource),
together with proofs of the specification's claims about it.

The Python script's effectful boundary (two `curl` subprocess invocations and
`json.loads`) is modelled by an explicit `Transport` value recording the outcome
of the GET and the PATCH; the pure parts (`_merge_env_vars`, CLI `KEY=VALUE`
parsing, URL/body construction) are translated function by function.
-/

set_option autoImplicit false

namespace VertexConfig

/-- Translation of the `EnvVar` dataclass: a single environment variable. -/
structure EnvVar where
  name : String
  value : String
  deriving DecidableEq, Repr

/-- Names of the entries of an env list, in order. -/
def envNames (l : List EnvVar) : List String :=
  l.map (·.name)

/-- Python dict assignment `d[k] = v` on an association list kept in insertion
order: an existing key keeps its position and gets the new value, a new key is
appended at the end.  This is exactly CPython's dict update semantics, which
`_merge_env_vars` relies on. -/
def dictInsert : List EnvVar → String → String → List EnvVar
  | [], k, v => [⟨k, v⟩]
  | x :: rest, k, v =>
      if x.name = k then ⟨k, v⟩ :: rest else x :: dictInsert rest k v

/-- Translation of `env_dict = {var["name"]: var["value"] for var in current_env}`
(line 155): build a dict from the list in encounter order; on duplicate names
the key keeps its first position and the last value wins. -/
def envDictOf (current_env : List EnvVar) : List EnvVar :=
  current_env.foldl (fun d x => dictInsert d x.name x.value) []

/-- Core of `_merge_env_vars` (lines 155-163): build the dict of the existing
vars, then assign each new var in caller order; the returned list is the dict's
items in insertion order (line 163 converts back to the wire format, which in
this embedding is the identity). -/
def mergeEnvVars (current_env new_vars : List EnvVar) : List EnvVar :=
  new_vars.foldl (fun d x => dictInsert d x.name x.value) (envDictOf current_env)

/-- First value in an env list carried by a given name, mirroring the lookup
`env_dict[k]` on the association-list representation. -/
def lookupEnv : List EnvVar → String → Option String
  | [], _ => none
  | x :: rest, n => if x.name = n then some x.value else lookupEnv rest n

/-- Value of the last entry with a given name: the "last write wins" map
denotation that the spec's data model assigns to an env list. -/
def lastValue : List EnvVar → String → Option String
  | [], _ => none
  | x :: rest, n =>
      match lastValue rest n with
      | some v => some v
      | none => if x.name = n then some x.value else none

/-- Minimal JSON documents, the shape of the remote configuration returned by
`json.loads` (object keys are unique, kept as an association list). -/
inductive Json where
  | null
  | str (s : String)
  | num (n : Int)
  | boolean (b : Bool)
  | arr (elems : List Json)
  | obj (fields : List (String × Json))

/-- Python `j.get(k, default)`: defined only on dicts (`none` models the
`AttributeError` a non-dict would raise), returning the stored value or the
default. -/
def pyGet (j : Json) (k : String) (default : Json) : Option Json :=
  match j with
  | .obj fields => some ((fields.lookup k).getD default)
  | _ => none

/-- Line 151: `current_config.get("spec", {}).get("deploymentSpec", {}).get("env", [])`. -/
def extractEnv (current_config : Json) : Option Json := do
  let spec ← pyGet current_config "spec" (.obj [])
  let ds ← pyGet spec "deploymentSpec" (.obj [])
  pyGet ds "env" (.arr [])

/-- Reads the extracted `env` JSON value as a list of EnvVar entries
(the schema the script assumes at line 155: a list of objects with string
`name` and `value` fields); `none` models the TypeError/KeyError Python would
raise on anything else. -/
def envOfJson (j : Json) : Option (List EnvVar) :=
  match j with
  | .arr elems =>
      elems.mapM fun e =>
        match e with
        | .obj fields =>
            match fields.lookup "name", fields.lookup "value" with
            | some (.str n), some (.str v) => some (⟨n, v⟩ : EnvVar)
            | _, _ => none
        | _ => none
  | _ => none

/-- Translation of `_merge_env_vars(current_config, new_vars)` (lines 144-166):
extract the env list at `spec.deploymentSpec.env` (missing levels default to
empty) and merge the new vars over it; `none` models an uncaught Python
exception on a malformed document. -/
def merge_env_vars (current_config : Json) (new_vars : List EnvVar) :
    Option (List EnvVar) := do
  let envJson ← extractEnv current_config
  let current_env ← envOfJson envJson
  some (mergeEnvVars current_env new_vars)

/-! ### Basic lemmas about `dictInsert` and the fold that builds the merge -/

theorem envNames_cons (x : EnvVar) (rest : List EnvVar) :
    envNames (x :: rest) = x.name :: envNames rest := rfl

theorem lookupEnv_dictInsert (d : List EnvVar) (k v n : String) :
    lookupEnv (dictInsert d k v) n = if n = k then some v else lookupEnv d n := by
  induction d with
  | nil =>
      by_cases h : n = k
      · subst h
        simp [dictInsert, lookupEnv]
      · have h' : ¬ k = n := fun hkn => h hkn.symm
        simp [dictInsert, lookupEnv, h, h']
  | cons x rest ih =>
      by_cases hx : x.name = k
      · subst hx
        by_cases h : n = x.name
        · subst h
          simp [dictInsert, lookupEnv]
        · have h1 : ¬ x.name = n := fun hh => h hh.symm
          simp [dictInsert, lookupEnv, h, h1]
      · by_cases h : n = k
        · subst h
          have h1 : ¬ x.name = n := hx
          simp [dictInsert, lookupEnv, hx, h1, ih]
        · simp [dictInsert, lookupEnv, hx, ih, h]

theorem envNames_dictInsert (d : List EnvVar) (k v : String) :
    envNames (dictInsert d k v) =
      if k ∈ envNames d then envNames d else envNames d ++ [k] := by
  induction d with
  | nil => simp [dictInsert, envNames]
  | cons x rest ih =>
      by_cases hx : x.name = k
      · have hmem : k ∈ envNames (x :: rest) := List.mem_cons.mpr (Or.inl hx.symm)
        rw [if_pos hmem]
        subst hx
        simp [dictInsert, envNames]
      · rw [show dictInsert (x :: rest) k v = x :: dictInsert rest k v from by
            simp [dictInsert, hx]]
        by_cases hmem : k ∈ envNames rest
        · have hmem' : k ∈ envNames (x :: rest) := by
            rw [envNames_cons]
            exact List.mem_cons_of_mem _ hmem
          rw [if_pos hmem']
          show x.name :: envNames (dictInsert rest k v) = _
          rw [ih, if_pos hmem, envNames_cons]
        · have hmem' : k ∉ envNames (x :: rest) := by
            rw [envNames_cons]
            intro hin
            rcases List.mem_cons.mp hin with h | h
            · exact hx h.symm
            · exact hmem h
          rw [if_neg hmem']
          show x.name :: envNames (dictInsert rest k v) = _
          rw [ih, if_neg hmem, envNames_cons]
          simp

theorem mem_envNames_dictInsert (d : List EnvVar) (k v n : String) :
    n ∈ envNames (dictInsert d k v) ↔ n ∈ envNames d ∨ n = k := by
  rw [envNames_dictInsert]
  by_cases hmem : k ∈ envNames d
  · rw [if_pos hmem]
    constructor
    · exact Or.inl
    · rintro (h | rfl)
      · exact h
      · exact hmem
  · rw [if_neg hmem]
    simp

theorem nodup_envNames_dictInsert (d : List EnvVar) (k v : String)
    (h : (envNames d).Nodup) : (envNames (dictInsert d k v)).Nodup := by
  rw [envNames_dictInsert]
  by_cases hmem : k ∈ envNames d
  · rw [if_pos hmem]
    exact h
  · rw [if_neg hmem]
    refine List.Nodup.append h (List.nodup_singleton k) ?_
    intro a ha hb
    rw [List.mem_singleton] at hb
    subst hb
    exact hmem ha

theorem dictInsert_of_not_mem (d : List EnvVar) (k v : String)
    (h : k ∉ envNames d) : dictInsert d k v = d ++ [⟨k, v⟩] := by
  induction d with
  | nil => simp [dictInsert]
  | cons x rest ih =>
      have hx : ¬ x.name = k := fun hxk => h (List.mem_cons.mpr (Or.inl hxk.symm))
      have hrest : k ∉ envNames rest := fun hk => h (List.mem_cons_of_mem _ hk)
      simp [dictInsert, hx, ih hrest]

theorem mem_dictInsert_of_ne (d : List EnvVar) (k v : String) (x : EnvVar)
    (hx : x ∈ d) (hne : x.name ≠ k) : x ∈ dictInsert d k v := by
  induction d with
  | nil => cases hx
  | cons y rest ih =>
      rcases List.mem_cons.mp hx with rfl | hx'
      · simp only [dictInsert, if_neg hne]
        exact List.mem_cons_self _ _
      · by_cases hyk : y.name = k
        · simp only [dictInsert, if_pos hyk]
          exact List.mem_cons_of_mem _ hx'
        · simp only [dictInsert, if_neg hyk]
          exact List.mem_cons_of_mem _ (ih hx')

/-! ### Lemmas about the merge fold -/

theorem lookupEnv_foldl (N : List EnvVar) (d : List EnvVar) (n : String) :
    lookupEnv (N.foldl (fun d x => dictInsert d x.name x.value) d) n =
      match lastValue N n with
      | some v => some v
      | none => lookupEnv d n := by
  induction N generalizing d with
  | nil => simp [lastValue]
  | cons x N ih =>
      rw [List.foldl_cons, ih, lookupEnv_dictInsert]
      cases hN : lastValue N n with
      | some v => simp [lastValue, hN]
      | none =>
          by_cases h : n = x.name
          · subst h
            simp [lastValue, hN]
          · have h1 : ¬ x.name = n := fun hh => h hh.symm
            simp [lastValue, hN, h, h1]

theorem mem_envNames_foldl (N : List EnvVar) (d : List EnvVar) (n : String) :
    n ∈ envNames (N.foldl (fun d x => dictInsert d x.name x.value) d) ↔
      n ∈ envNames d ∨ n ∈ envNames N := by
  induction N generalizing d with
  | nil => simp [envNames]
  | cons x N ih =>
      rw [List.foldl_cons, ih, mem_envNames_dictInsert, envNames_cons]
      simp only [List.mem_cons]
      tauto

theorem envNames_foldl_of_subset (N : List EnvVar) (d : List EnvVar)
    (h : ∀ y ∈ N, y.name ∈ envNames d) :
    envNames (N.foldl (fun d x => dictInsert d x.name x.value) d) = envNames d := by
  induction N generalizing d with
  | nil => rfl
  | cons x N ih =>
      rw [List.foldl_cons]
      have hx : x.name ∈ envNames d := h x (List.mem_cons_self _ _)
      have hins : envNames (dictInsert d x.name x.value) = envNames d := by
        rw [envNames_dictInsert, if_pos hx]
      rw [ih _ (fun y hy => by
        rw [hins]
        exact h y (List.mem_cons_of_mem _ hy)), hins]

theorem nodup_envNames_foldl (N : List EnvVar) (d : List EnvVar)
    (h : (envNames d).Nodup) :
    (envNames (N.foldl (fun d x => dictInsert d x.name x.value) d)).Nodup := by
  induction N generalizing d with
  | nil => exact h
  | cons x N ih =>
      rw [List.foldl_cons]
      exact ih _ (nodup_envNames_dictInsert _ _ _ h)

theorem foldl_dictInsert_eq_append (E : List EnvVar) (acc : List EnvVar)
    (h : (envNames acc ++ envNames E).Nodup) :
    E.foldl (fun d x => dictInsert d x.name x.value) acc = acc ++ E := by
  induction E generalizing acc with
  | nil => simp
  | cons x E ih =>
      rw [List.foldl_cons]
      have hx : x.name ∉ envNames acc := by
        intro hmem
        have hd := List.disjoint_of_nodup_append h
        exact hd hmem (by rw [envNames_cons]; exact List.mem_cons_self _ _)
      have hins : dictInsert acc x.name x.value = acc ++ [x] :=
        dictInsert_of_not_mem acc x.name x.value hx
      rw [hins, ih (acc ++ [x]) ?_, List.append_assoc, List.singleton_append]
      have : envNames (acc ++ [x]) ++ envNames E =
          envNames acc ++ envNames (x :: E) := by
        show (acc ++ [x]).map (·.name) ++ envNames E = _
        rw [List.map_append, List.append_assoc]
        rfl
      rw [this]
      exact h

theorem envDictOf_self (E : List EnvVar) (h : (envNames E).Nodup) :
    envDictOf E = E := by
  have := foldl_dictInsert_eq_append E [] (by simpa [envNames] using h)
  simpa [envDictOf] using this

theorem nodup_envNames_envDictOf (E : List EnvVar) :
    (envNames (envDictOf E)).Nodup :=
  nodup_envNames_foldl E [] (by simp [envNames])

theorem lastValue_eq_none_iff (N : List EnvVar) (n : String) :
    lastValue N n = none ↔ n ∉ envNames N := by
  induction N with
  | nil => simp [lastValue, envNames]
  | cons x N ih =>
      rw [envNames_cons]
      cases hN : lastValue N n with
      | some v =>
          have hmem : n ∈ envNames N := by
            by_contra hnot
            rw [ih.mpr hnot] at hN
            cases hN
          simp only [lastValue, hN]
          constructor
          · intro h
            cases h
          · intro h
            exact absurd (List.mem_cons_of_mem _ hmem) h
      | none =>
          have hnot := ih.mp hN
          by_cases h : x.name = n
          · simp [lastValue, hN, h]
          · have h' : ¬ n = x.name := fun hh => h hh.symm
            simp [lastValue, hN, h, h', hnot]

theorem lookupEnv_eq_none_of_not_mem (l : List EnvVar) (n : String)
    (h : n ∉ envNames l) : lookupEnv l n = none := by
  induction l with
  | nil => rfl
  | cons x rest ih =>
      have hx : ¬ x.name = n := by
        intro hxn
        exact h (by rw [envNames_cons, hxn]; exact List.mem_cons_self _ _)
      rw [show lookupEnv (x :: rest) n = if x.name = n then some x.value
            else lookupEnv rest n from rfl, if_neg hx]
      exact ih (fun hmem => h (by rw [envNames_cons]; exact List.mem_cons_of_mem _ hmem))

theorem mem_of_lookupEnv_eq_some (l : List EnvVar) (n v : String)
    (h : lookupEnv l n = some v) : (⟨n, v⟩ : EnvVar) ∈ l := by
  induction l with
  | nil => cases h
  | cons x rest ih =>
      by_cases hx : x.name = n
      · rw [show lookupEnv (x :: rest) n = if x.name = n then some x.value
              else lookupEnv rest n from rfl, if_pos hx] at h
        have hv : x.value = v := Option.some.inj h
        have : x = ⟨n, v⟩ := by
          cases x
          cases hx
          cases hv
          rfl
        rw [← this]
        exact List.mem_cons_self _ _
      · rw [show lookupEnv (x :: rest) n = if x.name = n then some x.value
              else lookupEnv rest n from rfl, if_neg hx] at h
        exact List.mem_cons_of_mem _ (ih h)

theorem envList_ext : ∀ (l₁ l₂ : List EnvVar), (envNames l₁).Nodup →
    envNames l₁ = envNames l₂ →
    (∀ n, lookupEnv l₁ n = lookupEnv l₂ n) → l₁ = l₂
  | [], [], _, _, _ => rfl
  | [], _ :: _, _, hnames, _ => by cases hnames
  | _ :: _, [], _, hnames, _ => by cases hnames
  | x :: t₁, y :: t₂, hnd, hnames, hlook => by
      rw [envNames_cons, envNames_cons] at hnames
      injection hnames with hname htails
      have hval : x.value = y.value := by
        have h := hlook x.name
        rw [show lookupEnv (x :: t₁) x.name = if x.name = x.name then some x.value
              else lookupEnv t₁ x.name from rfl, if_pos rfl] at h
        rw [show lookupEnv (y :: t₂) x.name = if y.name = x.name then some y.value
              else lookupEnv t₂ x.name from rfl, if_pos hname.symm] at h
        exact Option.some.inj h
      have hxy : x = y := by
        cases x
        cases y
        cases hname
        cases hval
        rfl
      subst hxy
      rw [envNames_cons] at hnd
      have hndt : (envNames t₁).Nodup := (List.nodup_cons.mp hnd).2
      have hxnot : x.name ∉ envNames t₁ := (List.nodup_cons.mp hnd).1
      refine congrArg (x :: ·) (envList_ext t₁ t₂ hndt htails ?_)
      intro n
      by_cases hn : n = x.name
      · subst hn
        rw [lookupEnv_eq_none_of_not_mem _ _ hxnot,
            lookupEnv_eq_none_of_not_mem _ _ (htails ▸ hxnot)]
      · have h := hlook n
        have hxn : ¬ x.name = n := fun hh => hn hh.symm
        rw [show lookupEnv (x :: t₁) n = if x.name = n then some x.value
              else lookupEnv t₁ n from rfl, if_neg hxn] at h
        rw [show lookupEnv (x :: t₂) n = if x.name = n then some x.value
              else lookupEnv t₂ n from rfl, if_neg hxn] at h
        exact h

/-! ### Embedding of the effectful pipeline

The script performs its I/O through two `curl` subprocess invocations
(`check=True`) followed by `json.loads` on the captured stdout.  A
`CmdResult` records the outcome of one such invocation: either the
subprocess raised `CalledProcessError` (carrying its stderr), or it
succeeded and its stdout parses to a JSON document (`none` models a
`json.JSONDecodeError`).  A `Transport` fixes the outcome of the GET and of
the PATCH for one run. -/

inductive CmdResult where
  | fails (stderr : String)
  | succeeds (parsed : Option Json)

structure Transport where
  getResult : CmdResult
  patchResult : CmdResult

/-- Errors of the update pipeline, following the spec's taxonomy:
`TransportError` for a failed subprocess (network/HTTP failure),
`DecodeError` for an unparseable response body, and `pyRaise` for the
uncaught TypeError/KeyError that `_merge_env_vars` raises on a document
whose env entries are malformed. -/
inductive ApiError where
  | TransportError (stderr : String)
  | DecodeError
  | pyRaise
  deriving DecidableEq

/-- Constructor arguments of `VertexAIReasoningEngineConfig.__init__`. -/
structure EngineIds where
  project_id : String
  location : String
  engine_id : String

/-- Translation of `_build_url` without query parameters (lines 93-99);
query parameters are kept structurally on the request instead of being
percent-encoded into the URL string. -/
def build_url (c : EngineIds) : String :=
  "https://" ++ c.location ++ "-aiplatform.googleapis.com/v1beta1/projects/" ++
    c.project_id ++ "/locations/" ++ c.location ++ "/reasoningEngines/" ++ c.engine_id

/-- One HTTP request issued by the script via `curl`. -/
structure Request where
  method : String
  url : String
  queryParams : List (String × String)
  body : Option Json

/-- The GET request of `get_current_config` (lines 114-126). -/
def getRequest (c : EngineIds) : Request :=
  { method := "GET", url := build_url c, queryParams := [], body := none }

/-- Translation of `get_current_config` (lines 106-142): run the GET,
mapping `CalledProcessError` to a transport failure and an unparseable
body to a decode failure, otherwise return the parsed document. -/
def get_current_config (t : Transport) : Except ApiError Json :=
  match t.getResult with
  | .fails stderr => .error (.TransportError stderr)
  | .succeeds none => .error .DecodeError
  | .succeeds (some config) => .ok config

/-- Wire form of a merged env list (line 163 / lines 183-189). -/
def envToJson (l : List EnvVar) : Json :=
  .arr (l.map fun x => .obj [("name", .str x.name), ("value", .str x.value)])

/-- The PATCH body built at lines 183-189: an object holding only
`spec.deploymentSpec.env`. -/
def patchBody (merged : List EnvVar) : Json :=
  .obj [("spec", .obj [("deploymentSpec", .obj [("env", envToJson merged)])])]

/-- The PATCH request of `update_env_vars` (lines 194-215): same URL, an
`updateMask` query parameter naming the env field path, and the body above. -/
def patchRequest (c : EngineIds) (merged : List EnvVar) : Request :=
  { method := "PATCH", url := build_url c,
    queryParams := [("updateMask", "spec.deploymentSpec.env")],
    body := some (patchBody merged) }

/-- Result of one run of the pipeline: the value returned (or the exception
propagated) and the HTTP requests issued, in order. -/
structure PipelineOutcome where
  result : Except ApiError Json
  requests : List Request

/-- Translation of `update_env_vars` (lines 168-242): GET the current
config, merge, then PATCH with the update mask; any failure propagates and
aborts the rest of the pipeline. -/
def update_env_vars (c : EngineIds) (t : Transport) (new_vars : List EnvVar) :
    PipelineOutcome :=
  match get_current_config t with
  | .error e => { result := .error e, requests := [getRequest c] }
  | .ok current_config =>
      match merge_env_vars current_config new_vars with
      | none => { result := .error .pyRaise, requests := [getRequest c] }
      | some merged =>
          match t.patchResult with
          | .fails stderr =>
              { result := .error (.TransportError stderr),
                requests := [getRequest c, patchRequest c merged] }
          | .succeeds none =>
              { result := .error .DecodeError,
                requests := [getRequest c, patchRequest c merged] }
          | .succeeds (some response) =>
              { result := .ok response,
                requests := [getRequest c, patchRequest c merged] }

/-! ### Embedding of the CLI argument handling (`main`, lines 292-345) -/

/-- Split a character list at the first occurrence of `sep`, the semantics
of Python `s.split(sep, 1)` when `sep` occurs; `none` when it does not
occur, which is also the semantics of `sep not in s`. -/
def splitFirst (sep : Char) : List Char → Option (List Char × List Char)
  | [] => none
  | c :: rest =>
      if c = sep then some ([], rest)
      else
        match splitFirst sep rest with
        | none => none
        | some (k, v) => some (c :: k, v)

/-- Translation of lines 314-318 for one argument: reject it when it has no
'=' sign, otherwise split at the first '=' into name and value. -/
def parseEnvVar (v : String) : Option EnvVar :=
  match splitFirst '=' v.data with
  | none => none
  | some (k, val) => some ⟨String.mk k, String.mk val⟩

/-- Translation of the parsing loop (lines 312-318): the first malformed
argument aborts with exit code 1, modelled as `none`. -/
def parse_env_vars : List String → Option (List EnvVar)
  | [] => some []
  | v :: rest =>
      match parseEnvVar v with
      | none => none
      | some ev =>
          match parse_env_vars rest with
          | none => none
          | some evs => some (ev :: evs)

/-- Exit code and issued API requests of one run of `main`. -/
structure MainOutcome where
  exitCode : Nat
  requests : List Request

/-- Translation of `main` (lines 292-345): parse the `--env-vars`
arguments (exit 1 on the first malformed one, before anything else runs),
check prerequisites (their outcome is the opaque `prereqOk`; exit 1 when
they fail, still before any API request), then run the update pipeline and
exit 0 on success, 1 on any exception. -/
def mainModel (c : EngineIds) (envArgs : List String) (prereqOk : Bool)
    (t : Transport) : MainOutcome :=
  match parse_env_vars envArgs with
  | none => { exitCode := 1, requests := [] }
  | some env_vars =>
      if prereqOk then
        let out := update_env_vars c t env_vars
        match out.result with
        | .ok _ => { exitCode := 0, requests := out.requests }
        | .error _ => { exitCode := 1, requests := out.requests }
      else { exitCode := 1, requests := [] }

/-! ### Remaining helper lemmas -/

theorem mem_foldl_dictInsert_of_ne (N : List EnvVar) (d : List EnvVar) (x : EnvVar)
    (hx : x ∈ d) (hnot : ∀ y ∈ N, y.name ≠ x.name) :
    x ∈ N.foldl (fun d y => dictInsert d y.name y.value) d := by
  induction N generalizing d with
  | nil => exact hx
  | cons y N ih =>
      rw [List.foldl_cons]
      refine ih _ (mem_dictInsert_of_ne d y.name y.value x hx ?_)
        (fun z hz => hnot z (List.mem_cons_of_mem _ hz))
      exact fun h => hnot y (List.mem_cons_self _ _) (h.symm ▸ rfl) |>.elim

/-- Documents in which the env-list path `spec.deploymentSpec.env` is absent:
some level of the nesting is an object that lacks the next key. -/
def envPathMissing (j : Json) : Prop :=
  ∃ fields, j = .obj fields ∧
    (fields.lookup "spec" = none ∨
      ∃ specFields, fields.lookup "spec" = some (.obj specFields) ∧
        (specFields.lookup "deploymentSpec" = none ∨
          ∃ dsFields, specFields.lookup "deploymentSpec" = some (.obj dsFields) ∧
            dsFields.lookup "env" = none))

theorem extractEnv_of_missing (j : Json) (h : envPathMissing j) :
    extractEnv j = some (.arr []) := by
  obtain ⟨fields, rfl, h⟩ := h
  rcases h with h | ⟨specFields, hspec, h⟩
  · simp [extractEnv, pyGet, h]
  · rcases h with h | ⟨dsFields, hds, h⟩
    · simp [extractEnv, pyGet, hspec, h]
    · simp [extractEnv, pyGet, hspec, hds, h]

/-! ### The claims about `_merge_env_vars` -/

/-- Claim C2 as stated is false on the code: an existing list that repeats a
name loses every entry with that name but the last, because `_merge_env_vars`
keys the existing list by name.  Concretely, the entry `A=1` of the existing
list `[A=1, A=2]` has a name that appears in no new var, yet it is absent
from the merge result. -/
theorem c2_counterexample :
    (⟨"A", "1"⟩ : EnvVar) ∈ ([⟨"A", "1"⟩, ⟨"A", "2"⟩] : List EnvVar) ∧
    (∀ y ∈ ([] : List EnvVar), y.name ≠ "A") ∧
    (⟨"A", "1"⟩ : EnvVar) ∉ mergeEnvVars [⟨"A", "1"⟩, ⟨"A", "2"⟩] [] := by
  refine ⟨List.mem_cons_self _ _, fun y hy => absurd hy (List.not_mem_nil y), ?_⟩
  decide

/-- Claim C2 (amended with the data model's uniqueness requirement): for every
existing env list E whose names are pairwise distinct and every new-variable
list N, every entry of E whose name does not appear in N is present, with its
value unchanged, in `merge(E, N)`. -/
theorem c2_merge_preserves_unrelated (E N : List EnvVar) (x : EnvVar)
    (hnd : (envNames E).Nodup) (hx : x ∈ E)
    (hnot : ∀ y ∈ N, y.name ≠ x.name) :
    x ∈ mergeEnvVars E N := by
  unfold mergeEnvVars
  rw [envDictOf_self E hnd]
  exact mem_foldl_dictInsert_of_ne N E x hx hnot

/-- Witness for `c2_merge_preserves_unrelated` at a concrete input. -/
theorem c2_merge_preserves_unrelated_witness :
    (⟨"KEEP", "1"⟩ : EnvVar) ∈
      mergeEnvVars [⟨"KEEP", "1"⟩, ⟨"LOG", "info"⟩] [⟨"LOG", "debug"⟩] :=
  c2_merge_preserves_unrelated [⟨"KEEP", "1"⟩, ⟨"LOG", "info"⟩] [⟨"LOG", "debug"⟩]
    ⟨"KEEP", "1"⟩ (by decide) (List.mem_cons_self _ _) (by decide)

/-- Claim C3: for every name n appearing in both E and N, `merge(E, N)` maps n
to N's value for n, where "N's value" is the value of the last entry of N with
that name in caller-supplied order (`lastValue`): last write wins. -/
theorem c3_merge_new_value_wins (E N : List EnvVar) (n : String)
    (_hE : n ∈ envNames E) (hN : n ∈ envNames N) :
    lookupEnv (mergeEnvVars E N) n = lastValue N n := by
  unfold mergeEnvVars
  rw [lookupEnv_foldl]
  cases h : lastValue N n with
  | some v => rfl
  | none => exact absurd hN ((lastValue_eq_none_iff N n).mp h)

/-- Witness for `c3_merge_new_value_wins`: with two entries for LOG in N, the
later one (debug2) wins. -/
theorem c3_merge_new_value_wins_witness :
    lookupEnv (mergeEnvVars [⟨"LOG", "info"⟩] [⟨"LOG", "debug"⟩, ⟨"LOG", "debug2"⟩])
        "LOG" =
      lastValue [⟨"LOG", "debug"⟩, ⟨"LOG", "debug2"⟩] "LOG" ∧
    lastValue [⟨"LOG", "debug"⟩, ⟨"LOG", "debug2"⟩] "LOG" = some "debug2" :=
  ⟨c3_merge_new_value_wins [⟨"LOG", "info"⟩] [⟨"LOG", "debug"⟩, ⟨"LOG", "debug2"⟩]
      "LOG" (by decide) (by decide),
    by decide⟩

/-- Claim C6 as stated is false on the code: an existing list that repeats a
name is not returned unchanged by `merge(E, [])`, because the dict built from
it collapses the repeated name to its last value. -/
theorem c6_counterexample :
    mergeEnvVars [⟨"A", "1"⟩, ⟨"A", "2"⟩] [] ≠ [⟨"A", "1"⟩, ⟨"A", "2"⟩] := by
  decide

/-- Claim C6 (amended with the data model's uniqueness requirement): for every
existing env list E whose names are pairwise distinct, `merge(E, []) = E`. -/
theorem c6_merge_empty_identity (E : List EnvVar) (hnd : (envNames E).Nodup) :
    mergeEnvVars E [] = E := by
  unfold mergeEnvVars
  rw [List.foldl_nil]
  exact envDictOf_self E hnd

/-- Witness for `c6_merge_empty_identity` at a concrete input. -/
theorem c6_merge_empty_identity_witness :
    mergeEnvVars [⟨"LOG", "info"⟩, ⟨"TRACE", "true"⟩] [] =
      [⟨"LOG", "info"⟩, ⟨"TRACE", "true"⟩] :=
  c6_merge_empty_identity [⟨"LOG", "info"⟩, ⟨"TRACE", "true"⟩] (by decide)

/-- Claim C7: when the env-list path is absent from the current document,
`_merge_env_vars` treats the existing list as empty and does not fail, and
`merge([], N)` equals N as a name→value set: it has the same names and, under
the data model's last-write-wins map semantics, the same value for every
name. -/
theorem c7_missing_path_total (j : Json) (N : List EnvVar)
    (h : envPathMissing j) :
    merge_env_vars j N = some (mergeEnvVars [] N) ∧
    (∀ n, lookupEnv (mergeEnvVars [] N) n = lastValue N n) ∧
    (∀ n, n ∈ envNames (mergeEnvVars [] N) ↔ n ∈ envNames N) := by
  refine ⟨?_, ?_, ?_⟩
  · rw [merge_env_vars, extractEnv_of_missing j h]
    rfl
  · intro n
    unfold mergeEnvVars
    rw [lookupEnv_foldl]
    cases hN : lastValue N n with
    | some v => rfl
    | none => rfl
  · intro n
    unfold mergeEnvVars
    rw [mem_envNames_foldl]
    simp [envDictOf, envNames]

/-- Witness for `c7_missing_path_total`: a document with a `spec` level but no
`deploymentSpec` below it. -/
theorem c7_missing_path_total_witness :
    merge_env_vars (.obj [("spec", .obj [("name", .str "engine")])])
        [⟨"LOG", "debug"⟩] =
      some (mergeEnvVars [] [⟨"LOG", "debug"⟩]) ∧
    lookupEnv (mergeEnvVars [] [⟨"LOG", "debug"⟩]) "LOG" =
      lastValue [⟨"LOG", "debug"⟩] "LOG" :=
  ⟨(c7_missing_path_total (.obj [("spec", .obj [("name", .str "engine")])])
      [⟨"LOG", "debug"⟩]
      ⟨[("spec", .obj [("name", .str "engine")])], rfl,
        Or.inr ⟨[("name", .str "engine")], rfl, Or.inl rfl⟩⟩).1,
    (c7_missing_path_total (.obj [("spec", .obj [("name", .str "engine")])])
      [⟨"LOG", "debug"⟩]
      ⟨[("spec", .obj [("name", .str "engine")])], rfl,
        Or.inr ⟨[("name", .str "engine")], rfl, Or.inl rfl⟩⟩).2.1 "LOG"⟩

/-- Claim C8: merging the same new-variable list twice changes nothing more
than merging it once: `merge(merge(E, N), N) = merge(E, N)`, for all E and N
(duplicate names allowed on both sides). -/
theorem c8_merge_idempotent (E N : List EnvVar) :
    mergeEnvVars (mergeEnvVars E N) N = mergeEnvVars E N := by
  have hndM : (envNames (mergeEnvVars E N)).Nodup :=
    nodup_envNames_foldl N (envDictOf E) (nodup_envNames_envDictOf E)
  have hstep : mergeEnvVars (mergeEnvVars E N) N =
      N.foldl (fun d x => dictInsert d x.name x.value) (mergeEnvVars E N) := by
    show N.foldl (fun d x => dictInsert d x.name x.value)
      (envDictOf (mergeEnvVars E N)) = _
    rw [envDictOf_self _ hndM]
  rw [hstep]
  refine envList_ext _ _ (nodup_envNames_foldl N _ hndM) ?_ ?_
  · refine envNames_foldl_of_subset N (mergeEnvVars E N) ?_
    intro y hy
    unfold mergeEnvVars
    rw [mem_envNames_foldl]
    exact Or.inr (List.mem_map_of_mem _ hy)
  · intro n
    rw [lookupEnv_foldl]
    cases h : lastValue N n with
    | none => rfl
    | some v =>
        show some v = lookupEnv (mergeEnvVars E N) n
        unfold mergeEnvVars
        rw [lookupEnv_foldl, h]

/-! ### The claims about the fetch-merge-apply pipeline -/

/-- Claim C1: if the fetch step fails for any reason, the apply step is never
attempted: the pipeline's only request is the GET, and no PATCH is issued. -/
theorem c1_no_patch_on_fetch_failure (c : EngineIds) (t : Transport)
    (N : List EnvVar) (e : ApiError) (h : get_current_config t = .error e) :
    (update_env_vars c t N).requests = [getRequest c] ∧
    ∀ r ∈ (update_env_vars c t N).requests, r.method ≠ "PATCH" := by
  unfold update_env_vars
  rw [h]
  refine ⟨rfl, ?_⟩
  intro r hr
  have hr' : r ∈ [getRequest c] := hr
  rw [List.mem_singleton] at hr'
  subst hr'
  simp [getRequest]

/-- Witness for `c1_no_patch_on_fetch_failure`: a GET whose `curl` call fails. -/
theorem c1_no_patch_on_fetch_failure_witness :
    (update_env_vars ⟨"proj", "us-central1", "engine123"⟩
        ⟨.fails "connection refused", .succeeds (some (.obj []))⟩
        [⟨"LOG", "debug"⟩]).requests =
      [getRequest ⟨"proj", "us-central1", "engine123"⟩] :=
  (c1_no_patch_on_fetch_failure ⟨"proj", "us-central1", "engine123"⟩
    ⟨.fails "connection refused", .succeeds (some (.obj []))⟩
    [⟨"LOG", "debug"⟩] (.TransportError "connection refused") rfl).1

theorem update_requests_cases (c : EngineIds) (t : Transport) (N : List EnvVar) :
    (update_env_vars c t N).requests = [getRequest c] ∨
    ∃ merged, (update_env_vars c t N).requests =
      [getRequest c, patchRequest c merged] := by
  unfold update_env_vars
  split
  · exact Or.inl rfl
  · split
    · exact Or.inl rfl
    · split
      · exact Or.inr ⟨_, rfl⟩
      · exact Or.inr ⟨_, rfl⟩
      · exact Or.inr ⟨_, rfl⟩

/-- Claim C4: every PATCH the pipeline issues carries exactly the query
parameter `updateMask=spec.deploymentSpec.env` and a body holding only the
nested `spec.deploymentSpec.env` field (a single-key object at each level). -/
theorem c4_patch_is_field_scoped (c : EngineIds) (t : Transport)
    (N : List EnvVar) (r : Request)
    (hr : r ∈ (update_env_vars c t N).requests) (hm : r.method = "PATCH") :
    r.queryParams = [("updateMask", "spec.deploymentSpec.env")] ∧
    ∃ env : List EnvVar,
      r.body = some (.obj [("spec", .obj [("deploymentSpec",
        .obj [("env", envToJson env)])])]) := by
  rcases update_requests_cases c t N with hreq | ⟨merged, hreq⟩
  · rw [hreq] at hr
    rw [List.mem_singleton] at hr
    subst hr
    exact absurd hm (by simp [getRequest])
  · rw [hreq] at hr
    rcases List.mem_cons.mp hr with rfl | hr'
    · exact absurd hm (by simp [getRequest])
    · rw [List.mem_singleton] at hr'
      subst hr'
      exact ⟨rfl, merged, rfl⟩

/-- Witness for `c4_patch_is_field_scoped`: a run in which fetch succeeds on a
document with no env list and the PATCH is issued. -/
theorem c4_patch_is_field_scoped_witness :
    (patchRequest ⟨"proj", "us-central1", "engine123"⟩ []).queryParams =
      [("updateMask", "spec.deploymentSpec.env")] :=
  (c4_patch_is_field_scoped ⟨"proj", "us-central1", "engine123"⟩
    ⟨.succeeds (some (.obj [])), .succeeds (some (.obj []))⟩ []
    (patchRequest ⟨"proj", "us-central1", "engine123"⟩ [])
    (List.mem_cons_of_mem _ (List.mem_cons_self _ _)) rfl).1

/-- Claim C5: fetch fails with `TransportError` exactly when the GET's curl
invocation fails and with `DecodeError` exactly when its response body is not
valid JSON; apply fails with `TransportError` when the PATCH's curl invocation
fails; in each such case the pipeline reports the error, never success. -/
theorem c5_error_taxonomy (c : EngineIds) (t : Transport) (N : List EnvVar) :
    (∀ stderr, t.getResult = .fails stderr →
        get_current_config t = .error (.TransportError stderr) ∧
        (update_env_vars c t N).result = .error (.TransportError stderr)) ∧
    (t.getResult = .succeeds none →
        get_current_config t = .error .DecodeError ∧
        (update_env_vars c t N).result = .error .DecodeError) ∧
    (∀ current_config merged stderr,
        t.getResult = .succeeds (some current_config) →
        merge_env_vars current_config N = some merged →
        t.patchResult = .fails stderr →
        (update_env_vars c t N).result = .error (.TransportError stderr)) := by
  refine ⟨?_, ?_, ?_⟩
  · intro stderr h
    have hget : get_current_config t = .error (.TransportError stderr) := by
      rw [get_current_config, h]
    refine ⟨hget, ?_⟩
    rw [update_env_vars, hget]
  · intro h
    have hget : get_current_config t = .error .DecodeError := by
      rw [get_current_config, h]
    refine ⟨hget, ?_⟩
    rw [update_env_vars, hget]
  · intro current_config merged stderr hget hmerge hpatch
    have hgetok : get_current_config t = .ok current_config := by
      rw [get_current_config, hget]
    simp [update_env_vars, hgetok, hmerge, hpatch]

/-- Witness for `c5_error_taxonomy`: the GET branch at a concrete failing
transport. -/
theorem c5_error_taxonomy_witness :
    get_current_config ⟨.fails "timeout", .succeeds (some (.obj []))⟩ =
      .error (.TransportError "timeout") ∧
    (update_env_vars ⟨"proj", "us-central1", "engine123"⟩
        ⟨.fails "timeout", .succeeds (some (.obj []))⟩ []).result =
      .error (.TransportError "timeout") :=
  (c5_error_taxonomy ⟨"proj", "us-central1", "engine123"⟩
      ⟨.fails "timeout", .succeeds (some (.obj []))⟩ []).1 "timeout" rfl

/-! ### The claims about the CLI argument handling -/

theorem splitFirst_eq_none_iff (sep : Char) (l : List Char) :
    splitFirst sep l = none ↔ sep ∉ l := by
  induction l with
  | nil => simp [splitFirst]
  | cons c rest ih =>
      by_cases hc : c = sep
      · subst hc
        simp [splitFirst]
      · have hc' : ¬ sep = c := fun h => hc h.symm
        cases hr : splitFirst sep rest with
        | none =>
            simp only [splitFirst, if_neg hc, hr]
            simp [hc', ih.mp hr]
        | some p =>
            have hmem : sep ∈ rest := by
              by_contra hnot
              rw [ih.mpr hnot] at hr
              cases hr
            simp only [splitFirst, if_neg hc, hr]
            simp [List.mem_cons, hmem]

theorem parse_env_vars_eq_none_of_mem (args : List String) (v : String)
    (hv : v ∈ args) (hbad : parseEnvVar v = none) :
    parse_env_vars args = none := by
  induction args with
  | nil => cases hv
  | cons a rest ih =>
      rcases List.mem_cons.mp hv with rfl | hv'
      · simp [parse_env_vars, hbad]
      · cases ha : parseEnvVar a with
        | none => simp [parse_env_vars, ha]
        | some ev => simp [parse_env_vars, ha, ih hv']

/-- Claim C9: an env-var argument without an '=' character makes the program
exit with code 1 before any network call: no fetch and no apply request is
ever issued. -/
theorem c9_malformed_arg_rejected (c : EngineIds) (args : List String)
    (prereqOk : Bool) (t : Transport) (v : String)
    (hv : v ∈ args) (hne : '=' ∉ v.data) :
    mainModel c args prereqOk t =
      { exitCode := 1, requests := [] } := by
  have hbad : parseEnvVar v = none := by
    rw [parseEnvVar, (splitFirst_eq_none_iff '=' v.data).mpr hne]
  rw [mainModel, parse_env_vars_eq_none_of_mem args v hv hbad]

/-- Witness for `c9_malformed_arg_rejected`: the second argument lacks '='. -/
theorem c9_malformed_arg_rejected_witness :
    mainModel ⟨"proj", "us-central1", "engine123"⟩ ["LOG=debug", "TRACE"] true
        ⟨.succeeds (some (.obj [])), .succeeds (some (.obj []))⟩ =
      { exitCode := 1, requests := [] } :=
  c9_malformed_arg_rejected ⟨"proj", "us-central1", "engine123"⟩
    ["LOG=debug", "TRACE"] true
    ⟨.succeeds (some (.obj [])), .succeeds (some (.obj []))⟩ "TRACE"
    (List.mem_cons_of_mem _ (List.mem_cons_self _ _)) (by decide)

theorem splitFirst_append (sep : Char) (name value : List Char)
    (h : sep ∉ name) :
    splitFirst sep (name ++ sep :: value) = some (name, value) := by
  induction name with
  | nil => simp [splitFirst]
  | cons c rest ih =>
      have hc : ¬ c = sep := fun hcs => h (List.mem_cons.mpr (Or.inl hcs.symm))
      have hrest : sep ∉ rest := fun hr => h (List.mem_cons_of_mem _ hr)
      simp [splitFirst, hc, ih hrest]

/-- Claim C10: a CLI env-var argument with at least one '=' is split at the
first '=' only: the name is everything before the first '=' and the value is
everything after it (so the value may itself contain '='), and an argument
beginning with '=' passes validation, yielding an EnvVar with empty name. -/
theorem c10_split_at_first_eq :
    (∀ name value : List Char, '=' ∉ name →
        parseEnvVar (String.mk (name ++ '=' :: value)) =
          some ⟨String.mk name, String.mk value⟩) ∧
    parseEnvVar "=v" = some ⟨"", "v"⟩ := by
  constructor
  · intro name value h
    rw [parseEnvVar, show (String.mk (name ++ '=' :: value)).data =
          name ++ '=' :: value from rfl,
        splitFirst_append '=' name value h]
  · decide

/-- Witness for `c10_split_at_first_eq`: the value keeps its own '=' signs. -/
theorem c10_split_at_first_eq_witness :
    parseEnvVar (String.mk (['K'] ++ '=' :: ['v', '=', 'w'])) =
      some ⟨String.mk ['K'], String.mk ['v', '=', 'w']⟩ :=
  c10_split_at_first_eq.1 ['K'] ['v', '=', 'w'] (by decide)

end VertexConfig
